import Mathlib

/-!
Verification of the naucse_archive core pipeline (naucse_archive/archival.py
and naucse_archive/fixes.py), shallowly embedded in Lean 4.

Modelling conventions:
* Filesystem paths are lists of path segments (`Path := List String`),
  representing absolute POSIX paths.  `pathlib.Path.resolve()` is modelled
  as lexical normalization (the archive operates on freshly created
  temporary directories, so symlinks are assumed absent).
* Fallible Python code (`raise ValueError`, `FileExistsError`, `KeyError`,
  for-else fallthrough) is modelled with `Except`; the error payload keeps
  the observable state at the raise so that facts about already-performed
  side effects (fetch calls, filesystem events) remain statable.
* The external container runtime and the external renderer invoked through
  containers are modelled as explicit state / function parameters.
-/

namespace NaucseArchive

/-- An absolute POSIX path, as the list of its segments ([] is the root). -/
abbrev Path := List String

/-- Lexical resolution of `..` / `.` / empty segments, as performed by
`pathlib.Path.resolve()` on a symlink-free tree: `.` and empty segments are
dropped, `..` removes the previous segment (the root is its own parent). -/
def normalizeSegs (segs : List String) : Path :=
  segs.foldl
    (fun acc s =>
      if s = "" ∨ s = "." then acc
      else if s = ".." then acc.dropLast
      else acc ++ [s])
    []

/-- Split a character list at every occurrence of `c` (computable by kernel
reduction, unlike `String.splitOn`). -/
def splitOnChar (c : Char) : List Char → List (List Char)
  | [] => [[]]
  | x :: xs =>
    let rest := splitOnChar c xs
    if x = c then [] :: rest
    else
      match rest with
      | r :: rs => (x :: r) :: rs
      | [] => [[x]]

/-- Split a textual path fragment as `pathlib` does: leading `/` makes it
absolute (overriding the base in a join), and the fragment contributes its
`/`-separated segments (empty segments are dropped). -/
def parseFrag (frag : String) : Bool × List String :=
  let cs := frag.data
  (match cs with
    | '/' :: _ => true
    | _ => false,
   ((splitOnChar '/' cs).filter (fun l => l ≠ [])).map String.mk)

/-- `(base / end).resolve()` from `joinpath` in archival.py: join (an
absolute fragment overrides `base`), then resolve. -/
def resolvePath (base : Path) (frag : String) : Path :=
  let p := parseFrag frag
  normalizeSegs (if p.1 then p.2 else base ++ p.2)

/-- `pathlib.PurePath.parents` of an already-resolved path: all proper
prefixes (ancestors), from the root up to but excluding the path itself. -/
def pathParents (p : Path) : List Path :=
  (List.range p.length).map (fun k => p.take k)

/-- `joinpath(base, end)` from archival.py: resolve `base / end` and fail
with `ValueError(end)` unless `base` is one of the result's parents. -/
def joinpath (base : Path) (frag : String) : Except String Path :=
  let result := resolvePath base frag
  if base ∈ pathParents result then .ok result else .error frag

/-- Helper for `renderPath`: the `/seg₁/seg₂/…` character sequence. -/
def renderAux (p : Path) : List Char :=
  p.foldl (fun acc seg => acc ++ '/' :: seg.data) []

/-- Textual rendering of a path, as a character sequence (the root is `/`,
other paths are `/`-joined segments). -/
def renderPath (p : Path) : List Char :=
  if p = [] then ['/'] else renderAux p

/-- The spec-side containment notion: the resolved result is a (strict)
descendant of `base`. -/
def staysWithin (base : Path) (frag : String) : Prop :=
  base <+: resolvePath base frag ∧ base ≠ resolvePath base frag

instance (base : Path) (frag : String) : Decidable (staysWithin base frag) := by
  unfold staysWithin; infer_instance

/-- An observable filesystem side effect of the archival run. -/
inductive FsEvent where
  | mkdirE (p : Path)
  | writeE (p : Path)
  | copyE (src dst : Path)
deriving DecidableEq, Repr

/-- The output filesystem state: the files and directories that exist under
the archive's control, plus the log of side effects performed so far. -/
structure FS where
  files : List Path
  dirs : List Path
  events : List FsEvent
deriving DecidableEq, Repr

/-- The empty output tree. -/
def FS.empty : FS := ⟨[], [], []⟩

/-- `Path.exists()`: the path is a known file or directory. -/
def FS.existsPath (fs : FS) (p : Path) : Bool :=
  fs.files.contains p || fs.dirs.contains p

/-- All prefixes of a path (itself included): the directories created by
`mkdir(parents=True)`. -/
def ancestorsIncl (p : Path) : List Path :=
  (List.range (p.length + 1)).map (fun k => p.take k)

/-- `p.mkdir(parents=True, exist_ok=True)`. -/
def FS.mkdirP (fs : FS) (p : Path) : FS :=
  { fs with
    dirs := fs.dirs ++ (ancestorsIncl p).filter (fun q => !fs.dirs.contains q),
    events := fs.events ++ [.mkdirE p] }

/-- `p.mkdir(parents=True, exist_ok=False)`: `FileExistsError` when the
path itself already exists. -/
def FS.mkdirExcl (fs : FS) (p : Path) : Except String FS :=
  if fs.existsPath p then .error ("FileExistsError: " ++ String.mk (renderPath p))
  else .ok (fs.mkdirP p)

/-- `p.write_text(...)` (content is not tracked, only the written path and
the event). -/
def FS.writeFile (fs : FS) (p : Path) : FS :=
  { fs with
    files := if fs.files.contains p then fs.files else fs.files ++ [p],
    events := fs.events ++ [.writeE p] }

/-- `shutil.copy(src, dst)` (the exists-guard is at the call site, as in
`save_lessons`). -/
def FS.copyFile (fs : FS) (src dst : Path) : FS :=
  { fs with
    files := if fs.files.contains dst then fs.files else fs.files ++ [dst],
    events := fs.events ++ [.copyE src dst] }

/-- The write pattern of `save_lessons`: a destination produced by
`joinpath` is written only after `joinpath` succeeds; a containment
violation aborts before any write. -/
def writeViaJoin (fs : FS) (base : Path) (frag : String) :
    Except String (FS × Path) :=
  match joinpath base frag with
  | .error e => .error e
  | .ok p => .ok (fs.writeFile p, p)

/-- One recorded invocation of the container runtime's build step: the
optional `-t` tag, the Containerfile lines written by the recipe, and the
auxiliary files placed in the build context. -/
structure BuildRecord where
  tag : Option String
  recipe : List String
  aux : List (String × String)
deriving DecidableEq, Repr

/-- The container runtime's observable state: which image names exist, and
the log of build invocations issued so far.  A successful tagged build
registers its tag as an existing image (external runtime behaviour). -/
structure ContainerRuntime where
  images : List String
  builds : List BuildRecord
deriving DecidableEq, Repr

/-- The `ImageMaker` context manager of archival.py, as one operation: on
entry, `image exists name` is consulted; if it reports the image exists,
the recipe's write calls are no-ops and no build is issued; otherwise the
recipe is written out and `build … -t name` runs on exit.  With no name,
the build always runs and the runtime-chosen identifier is returned. -/
def ensureImage : ContainerRuntime → Option String → List String →
    List (String × String) → String × ContainerRuntime
  | rt, some n, recipe, aux =>
    if rt.images.contains n then (n, rt)
    else (n, ⟨n :: rt.images, rt.builds ++ [⟨some n, recipe, aux⟩]⟩)
  | rt, none, recipe, aux =>
    let n := "img-" ++ toString rt.builds.length
    (n, ⟨n :: rt.images, rt.builds ++ [⟨none, recipe, aux⟩]⟩)

/-- The two dependency-resolution routes of `choose_get_image`. -/
inductive GetImageRoute where
  | micropipenv
  | piptools
deriving DecidableEq, Repr

/-- `choose_get_image(worktree)`: `Pipfile.lock` routes to micropipenv,
otherwise `requirements.txt` routes to piptools, otherwise the function
falls through and returns `None`. -/
def chooseGetImage (hasPipfileLock hasRequirementsTxt : Bool) :
    Option GetImageRoute :=
  if hasPipfileLock then some .micropipenv
  else if hasRequirementsTxt then some .piptools
  else none

/-- `archive` invoking `get_image = choose_get_image(worktree);
get_image(...)`: calling the `None` result raises Python's generic
`TypeError`, which names no route and no missing file. -/
def callGetImage (r : Option GetImageRoute) : Except String GetImageRoute :=
  match r with
  | some f => .ok f
  | none => .error "TypeError: NoneType object is not callable"

/-- Python tuple comparison `v >= w` on version pairs (lexicographic). -/
def lexGeVersion (v w : Nat × Nat) : Bool :=
  (w.1 < v.1) || (v.1 == w.1 && w.2 ≤ v.2)

/-- The message of the `ValueError` raised by `save_course` for an
unsupported `api_version` (the f-string renders the offending tuple). -/
def apiVersionMsg (v : Nat × Nat) : String :=
  "API version (" ++ toString v.1 ++ ", " ++ toString v.2
    ++ ") is too new. For this course, use `python -m naucse_render compile` directly."

/-- The `api_version` gate of `save_course`: reject when
`version >= (0, 4)` under Python tuple (lexicographic) comparison. -/
def apiVersionGate (v : Nat × Nat) : Except String Unit :=
  if lexGeVersion v (0, 4) then .error (apiVersionMsg v) else .ok ()

/-! ### SHA-256 (`hashlib.sha256(...).hexdigest()`), over byte lists -/

/-- 32-bit right rotation on a `Nat` below `2 ^ 32`. -/
def rotr32 (n x : Nat) : Nat :=
  (x / 2 ^ n) + (x % 2 ^ n) * 2 ^ (32 - n)

/-- The big-endian bytes (most significant first) of `x`, `n` bytes wide. -/
def toBytesBE (n : Nat) (x : Nat) : List Nat :=
  (List.range n).reverse.map (fun i => (x / 2 ^ (8 * i)) % 256)

/-- SHA-256 round constants. -/
def sha256K : List Nat :=
  [1116352408, 1899447441, 3049323471, 3921009573, 961987163,
   1508970993, 2453635748, 2870763221, 3624381080, 310598401,
   607225278, 1426881987, 1925078388, 2162078206, 2614888103,
   3248222580, 3835390401, 4022224774, 264347078, 604807628,
   770255983, 1249150122, 1555081692, 1996064986, 2554220882,
   2821834349, 2952996808, 3210313671, 3336571891, 3584528711,
   113926993, 338241895, 666307205, 773529912, 1294757372,
   1396182291, 1695183700, 1986661051, 2177026350, 2456956037,
   2730485921, 2820302411, 3259730800, 3345764771, 3516065817,
   3600352804, 4094571909, 275423344, 430227734, 506948616,
   659060556, 883997877, 958139571, 1322822218, 1537002063,
   1747873779, 1955562222, 2024104815, 2227730452, 2361852424,
   2428436474, 2756734187, 3204031479, 3329325298]

/-- SHA-256 initial hash state. -/
def sha256H0 : List Nat :=
  [1779033703, 3144134277, 1013904242, 2773480762,
   1359893119, 2600822924, 528734635, 1541459225]

/-- SHA-256 message padding: `0x80`, zeros, 64-bit big-endian bit length. -/
def sha256Pad (msg : List Nat) : List Nat :=
  let zeros := (64 - ((msg.length + 9) % 64)) % 64
  msg ++ [0x80] ++ List.replicate zeros 0 ++ toBytesBE 8 (msg.length * 8)

/-- Group bytes into big-endian 32-bit words. -/
def wordsBE : List Nat → List Nat
  | a :: b :: c :: d :: rest => (((a * 256 + b) * 256 + c) * 256 + d) :: wordsBE rest
  | _ => []

/-- Split a byte list into 64-byte chunks (`fuel` bounds the recursion so
the definition stays structural; callers pass the list length). -/
def chunksOf64 : Nat → List Nat → List (List Nat)
  | 0, _ => []
  | _, [] => []
  | fuel + 1, l => l.take 64 :: chunksOf64 fuel (l.drop 64)

/-- One message-schedule extension step: append word `i` computed from
words `i-2`, `i-7`, `i-15`, `i-16`. -/
def sha256ExtendStep (w : List Nat) : List Nat :=
  let i := w.length
  let s0 :=
    rotr32 7 (w.getD (i - 15) 0) ^^^ rotr32 18 (w.getD (i - 15) 0)
      ^^^ (w.getD (i - 15) 0) / 2 ^ 3
  let s1 :=
    rotr32 17 (w.getD (i - 2) 0) ^^^ rotr32 19 (w.getD (i - 2) 0)
      ^^^ (w.getD (i - 2) 0) / 2 ^ 10
  w ++ [(w.getD (i - 16) 0 + s0 + w.getD (i - 7) 0 + s1) % 2 ^ 32]

/-- Iterate the message-schedule extension. -/
def sha256Extend : Nat → List Nat → List Nat
  | 0, w => w
  | n + 1, w => sha256Extend n (sha256ExtendStep w)

/-- One SHA-256 compression round on the 8-word working state. -/
def sha256Round (st : List Nat) (kw : Nat × Nat) : List Nat :=
  match st with
  | [a, b, c, d, e, f, g, h] =>
    let bigS1 := rotr32 6 e ^^^ rotr32 11 e ^^^ rotr32 25 e
    let ch := (e &&& f) ^^^ ((e ^^^ 0xffffffff) &&& g)
    let t1 := (h + bigS1 + ch + kw.1 + kw.2) % 2 ^ 32
    let bigS0 := rotr32 2 a ^^^ rotr32 13 a ^^^ rotr32 22 a
    let maj := (a &&& b) ^^^ (a &&& c) ^^^ (b &&& c)
    let t2 := (bigS0 + maj) % 2 ^ 32
    [(t1 + t2) % 2 ^ 32, a, b, c, (d + t1) % 2 ^ 32, e, f, g]
  | other => other

/-- Process one 64-byte block. -/
def sha256Block (h : List Nat) (block : List Nat) : List Nat :=
  let w := sha256Extend 48 (wordsBE block)
  let st := (sha256K.zip w).foldl sha256Round h
  (h.zip st).map (fun p => (p.1 + p.2) % 2 ^ 32)

/-- SHA-256 digest bytes of a byte list. -/
def sha256Bytes (msg : List Nat) : List Nat :=
  let padded := sha256Pad msg
  let final := (chunksOf64 padded.length padded).foldl sha256Block sha256H0
  (final.map (toBytesBE 4)).flatten

/-- Lower-case hex digit. -/
def hexDigit (n : Nat) : Char :=
  if n < 10 then Char.ofNat (48 + n) else Char.ofNat (87 + n)

/-- Lower-case hex rendering of a byte list (`hexdigest()`). -/
def bytesToHex (bs : List Nat) : String :=
  String.mk ((bs.map (fun b => [hexDigit (b / 16), hexDigit (b % 16)])).flatten)

/-- `hashlib.sha256(bytes).hexdigest()`. -/
def sha256Hex (msg : List Nat) : String :=
  bytesToHex (sha256Bytes msg)

/-- UTF-8 encoding of one character, as byte values (`str.encode()`). -/
def utf8EncodeCharNat (c : Char) : List Nat :=
  let n := c.toNat
  if n < 0x80 then [n]
  else if n < 0x800 then [0xc0 + n / 0x40, 0x80 + n % 0x40]
  else if n < 0x10000 then
    [0xe0 + n / 0x1000, 0x80 + (n / 0x40) % 0x40, 0x80 + n % 0x40]
  else
    [0xf0 + n / 0x40000, 0x80 + (n / 0x1000) % 0x40,
     0x80 + (n / 0x40) % 0x40, 0x80 + n % 0x40]

/-- The exact byte content of a string (`reqs.encode()`). -/
def utf8Bytes (s : String) : List Nat :=
  (s.data.map utf8EncodeCharNat).flatten

/-! ### The image-derivation pipeline -/

/-- `CONTAINER_PYTHON_COMMAND` from archival.py. -/
def containerPythonCommand : String := "/naucse/env/bin/python"

/-- `fixes.find_prerequisites`: inject build-time prerequisites for known
legacy packages found in the pinned listing. -/
def findPrerequisites (reqs : String) : String :=
  if (splitOnChar '\n' reqs.data).any
      (fun l => List.isPrefixOf "markupsafe==1.0".data l)
  then "setuptools < 46" else ""

/-- `get_python_image`: the base-runtime layer, named from the Python
version, built through the `ImageMaker` cache. -/
def getPythonImage (rt : ContainerRuntime) (ver : String) :
    String × ContainerRuntime :=
  let name := "localhost/naucse-py" ++ ver
  ensureImage rt (some name)
    ["FROM fedora",
     "RUN dnf install -y --setopt=install_weak_deps=False python" ++ ver
       ++ " python-pip-wheel && dnf clean all",
     "RUN mkdir /naucse /naucse/wd /naucse/aux",
     "RUN python" ++ ver ++ " -m venv /naucse/env",
     "RUN " ++ containerPythonCommand ++ " -m pip install -U pip wheel",
     "ENV PIP_CACHE_DIR /naucse/pip-cache",
     "WORKDIR /naucse/wd"]
    []

/-- `get_image_from_requirements`: the dependency-stage layer.  Its name is
the Python version plus the SHA-256 hex digest of the pinned listing's
bytes; the recipe installs the prerequisite pass then the listing. -/
def getImageFromRequirements (rt : ContainerRuntime) (ver reqs : String) :
    String × ContainerRuntime :=
  let reqsHash := sha256Hex (utf8Bytes reqs)
  let name := "localhost/naucse-py" ++ ver ++ "-" ++ reqsHash
  let base := getPythonImage rt ver
  ensureImage base.2 (some name)
    ["FROM " ++ base.1,
     "ADD requirements-pre.txt /naucse/requirements-pre.txt",
     "RUN " ++ containerPythonCommand
       ++ " -m pip install -r /naucse/requirements-pre.txt",
     "ADD requirements.txt /naucse/requirements.txt",
     "RUN " ++ containerPythonCommand
       ++ " -m pip install -r /naucse/requirements.txt"]
    [("requirements.txt", reqs), ("requirements-pre.txt", findPrerequisites reqs)]

/-! ### `urllib.parse` -/

/-- The result of `urllib.parse.urlparse`. -/
structure UrlParts where
  scheme : String
  netloc : String
  path : String
  params : String
  query : String
  fragment : String
deriving DecidableEq, Repr

/-- Lower-case an ASCII character. -/
def lowerChar (c : Char) : Char :=
  if 65 ≤ c.toNat ∧ c.toNat ≤ 90 then Char.ofNat (c.toNat + 32) else c

/-- Break a character list at the first occurrence of `c`:
`(before, some after)` when found, `(cs, none)` otherwise. -/
def breakOnChar (c : Char) : List Char → List Char × Option (List Char)
  | [] => ([], none)
  | x :: xs =>
    if x = c then ([], some xs)
    else
      let r := breakOnChar c xs
      (x :: r.1, r.2)

/-- A character allowed in a URL scheme after the first letter. -/
def isSchemeChar (c : Char) : Bool :=
  c.isAlpha || c.isDigit || c = '+' || c = '-' || c = '.'

/-- Split off `scheme:` when the part before the first `:` is a valid
scheme (letter first, then letters/digits/`+-.`); the scheme is
lower-cased.  Otherwise the URL has no scheme. -/
def splitSchemeUrl (cs : List Char) : Option (List Char) × List Char :=
  match breakOnChar ':' cs with
  | (pre, some post) =>
    match pre with
    | [] => (none, cs)
    | c :: rest =>
      if c.isAlpha && rest.all isSchemeChar then
        (some (pre.map lowerChar), post)
      else (none, cs)
  | (_, none) => (none, cs)

/-- Split `params` off the last path segment at the first `;`, as
`urlparse` does on top of `urlsplit`. -/
def splitLastSegParams (path : List Char) : List Char × List Char :=
  if path.contains '/' then
    let rev := path.reverse
    let revSeg := rev.takeWhile (fun c => c ≠ '/')
    let lastSeg := revSeg.reverse
    let lead := (rev.drop revSeg.length).reverse
    match breakOnChar ';' lastSeg with
    | (before, some after) => (lead ++ before, after)
    | (_, none) => (path, [])
  else
    match breakOnChar ';' path with
    | (before, some after) => (before, after)
    | (_, none) => (path, [])

/-- `urllib.parse.urlparse` (no-authority forms like
`naucse:page?lesson=x` as well as `//netloc` forms). -/
def urlparse (s : String) : UrlParts :=
  let (scheme?, rest) := splitSchemeUrl s.data
  let (netloc, rest) :=
    match rest with
    | '/' :: '/' :: tl =>
      (tl.takeWhile (fun c => c ≠ '/' ∧ c ≠ '?' ∧ c ≠ '#'),
       tl.dropWhile (fun c => c ≠ '/' ∧ c ≠ '?' ∧ c ≠ '#'))
    | _ => ([], rest)
  let (rest, fragment) :=
    match breakOnChar '#' rest with
    | (before, some after) => (before, after)
    | (before, none) => (before, [])
  let (pathRaw, query) :=
    match breakOnChar '?' rest with
    | (before, some after) => (before, after)
    | (before, none) => (before, [])
  let (path, params) := splitLastSegParams pathRaw
  ⟨String.mk (scheme?.getD []), String.mk netloc, String.mk path,
   String.mk params, String.mk query, String.mk fragment⟩

/-- Hexadecimal digit value. -/
def hexVal (c : Char) : Option Nat :=
  let n := c.toNat
  if 48 ≤ n ∧ n ≤ 57 then some (n - 48)
  else if 97 ≤ n ∧ n ≤ 102 then some (n - 87)
  else if 65 ≤ n ∧ n ≤ 70 then some (n - 55)
  else none

/-- `urllib.parse.unquote_plus` restricted to single-byte escapes (`+` to
space and `%XX` with `XX < 0x80`; multi-byte UTF-8 percent sequences do
not occur in the link forms modelled here). -/
def unquotePlus : List Char → List Char
  | [] => []
  | '+' :: rest => ' ' :: unquotePlus rest
  | '%' :: a :: b :: rest =>
    match hexVal a, hexVal b with
    | some x, some y => Char.ofNat (16 * x + y) :: unquotePlus rest
    | _, _ => '%' :: unquotePlus (a :: b :: rest)
  | c :: rest => c :: unquotePlus rest

/-- `urllib.parse.parse_qsl(query, separator='&')` with default options:
empty fields are skipped, fields without `=` are skipped, and pairs whose
value is empty are dropped (`keep_blank_values=False`). -/
def parseQsl (query : List Char) : List (String × String) :=
  (splitOnChar '&' query).foldr
    (fun field acc =>
      match field with
      | [] => acc
      | _ =>
        match breakOnChar '=' field with
        | (nm, some v) =>
          if v ≠ [] then
            (String.mk (unquotePlus nm), String.mk (unquotePlus v)) :: acc
          else acc
        | (_, none) => acc)
    []

/-- Insert one key/value pair into the grouped `parse_qs` result,
preserving first-occurrence key order. -/
def qsInsert (acc : List (String × List String)) (kv : String × String) :
    List (String × List String) :=
  match acc with
  | [] => [(kv.1, [kv.2])]
  | (k, vs) :: rest =>
    if k = kv.1 then (k, vs ++ [kv.2]) :: rest else (k, vs) :: qsInsert rest kv

/-- `urllib.parse.parse_qs(query, separator='&')`. -/
def parseQs (query : List Char) : List (String × List String) :=
  (parseQsl query).foldl qsInsert []

/-! ### `fixes.find_lesson_slugs` -/

/-- A parsed HTML element (`lxml` fragment): attributes and children.  The
HTML parsing itself is delegated to lxml; content is modelled as the
parsed fragment forest. -/
inductive Element where
  | mk (attrib : List (String × String)) (children : List Element)

/-- Attribute list of an element. -/
def Element.attrib : Element → List (String × String)
  | .mk a _ => a

/-- Children of an element. -/
def Element.children : Element → List Element
  | .mk _ c => c

/-- The body of `_find_lesson_slugs` for one link text: parse the URL; a
`naucse:page` link yields `qs['lesson']` (a missing `lesson` parameter is
a `KeyError`, as in the source); any other link yields nothing. -/
def slugsFromLink (linkText : String) : Except String (List String) :=
  let u := urlparse linkText
  if u.scheme = "naucse" ∧ u.path = "page" then
    match (parseQs u.query.data).lookup "lesson" with
    | some vs => .ok vs
    | none => .error "KeyError: lesson"
  else .ok []

/-- Scan the `href` and `src` attributes of one element (an absent or
empty attribute value is skipped, as `if link_text:` does). -/
def slugsFromAttrs (attrib : List (String × String)) :
    Except String (List String) := do
  let fromHref ←
    match attrib.lookup "href" with
    | some v => if v ≠ "" then slugsFromLink v else pure []
    | none => pure []
  let fromSrc ←
    match attrib.lookup "src" with
    | some v => if v ≠ "" then slugsFromLink v else pure []
    | none => pure []
  pure (fromHref ++ fromSrc)

mutual

/-- `_find_lesson_slugs`: yield slugs from this element's link attributes,
then recurse into its children. -/
def findSlugsEl : Element → Except String (List String)
  | .mk attrib children => do
    let a ← slugsFromAttrs attrib
    let c ← findSlugsList children
    pure (a ++ c)

/-- Slug scan over a list of elements, in order. -/
def findSlugsList : List Element → Except String (List String)
  | [] => pure []
  | e :: es => do
    let x ← findSlugsEl e
    let xs ← findSlugsList es
    pure (x ++ xs)

end

/-- `fixes.find_lesson_slugs`: scan a parsed fragment forest for
`naucse:page?lesson=…` references. -/
def findLessonSlugs (frags : List Element) : Except String (List String) :=
  findSlugsList frags

/-! ### `save_lessons` -/

/-- `str.lower()` (ASCII range, as used for slugs and static names). -/
def toLowerStr (s : String) : String := String.mk (s.data.map lowerChar)

/-- `'.' in slug` and similar membership tests. -/
def containsChar (s : String) (c : Char) : Bool := s.data.contains c

/-- A character kept by the static-name sanitizer `[^a-z0-9./_-]+`. -/
def isAllowedStatic (c : Char) : Bool :=
  (97 ≤ c.toNat ∧ c.toNat ≤ 122) || (48 ≤ c.toNat ∧ c.toNat ≤ 57)
    || c = '.' || c = '/' || c = '_' || c = '-'

/-- Replace every maximal run of disallowed characters by a single `-`
(the flag records whether we are inside such a run). -/
def squashDisallowed : Bool → List Char → List Char
  | _, [] => []
  | inRun, c :: rest =>
    if isAllowedStatic c then c :: squashDisallowed false rest
    else if inRun then squashDisallowed true rest
    else '-' :: squashDisallowed true rest

/-- `re.sub('[^a-z0-9./_-]+', '-', name.lower())` from `save_lessons`. -/
def sanitizeName (name : String) : String :=
  String.mk (squashDisallowed false (name.data.map lowerChar))

/-- Set-style insert into a slug list (`set.add`). -/
def insertStr (l : List String) (s : String) : List String :=
  if l.contains s then l else l ++ [s]

/-- Set-style union (`set.update`). -/
def unionStr (l new : List String) : List String := new.foldl insertStr l

/-- Set difference (`lesson_slugs -= _done_slugs`). -/
def removeAll (l rem : List String) : List String :=
  l.filter (fun s => !rem.contains s)

/-- Code-point comparison of character lists (Python string `<`). -/
def charsLt : List Char → List Char → Bool
  | [], [] => false
  | [], _ :: _ => true
  | _ :: _, [] => false
  | a :: as, b :: bs => if a < b then true else if b < a then false else charsLt as bs

/-- Python string comparison, by code points. -/
def strLt (a b : String) : Bool := charsLt a.data b.data

/-- Insert into an ascending list (helper for `sorted`). -/
def insSorted (s : String) : List String → List String
  | [] => [s]
  | x :: xs => if strLt x s then x :: insSorted s xs else s :: x :: xs

/-- `sorted(slugs)`: ascending by code points. -/
def sortStrings (l : List String) : List String := l.foldr insSorted []

/-- One page as returned by the renderer: parsed `content` markup and the
markup of each solution. -/
structure Page where
  content : List Element
  solutions : List (List Element)

/-- One lesson as returned by the renderer: named pages and static files
(name to source path under the worktree). -/
structure Lesson where
  pages : List (String × Page)
  static_files : List (String × String)

/-- A stored page: content replaced by its output-relative path. -/
structure StoredPage where
  contentPath : String
  solutionPaths : List String
deriving DecidableEq, Repr

/-- A stored lesson in the `result` mapping. -/
structure StoredLesson where
  pages : List (String × StoredPage)
  static_files : List (String × String)
deriving DecidableEq, Repr

/-- The `save_lessons` machine state: the `result` mapping, the frontier
(`lesson_slugs`), the resolved set (`_done_slugs`), the output filesystem,
and ghost logs of the batches fetched and of the resolved set at the end
of each completed round. -/
structure SL where
  result : List (String × StoredLesson)
  frontier : List String
  done : List String
  fs : FS
  fetchLog : List (List String)
  doneLog : List (List String)

/-- Render a path relative to a base it extends (`relative_to`). -/
def joinRel : List String → String
  | [] => ""
  | [s] => s
  | s :: rest => s ++ "/" ++ joinRel rest

/-- `str(p.relative_to(base))` for `p` strictly under `base`. -/
def relTo (p base : Path) : String := joinRel (p.drop base.length)

/-- Process `page['solutions']` with their indices: write
`solution-<index>.html`, scan the content for further slugs. -/
def processSolutions (outRoot outpath : Path) :
    Nat → SL → List (List Element) → Except (String × SL) (SL × List String)
  | _, st, [] => .ok (st, [])
  | i, st, sol :: rest =>
    match writeViaJoin st.fs outpath ("solution-" ++ toString i ++ ".html") with
    | .error e => .error (e, st)
    | .ok (fs₁, cpath) =>
      match findLessonSlugs sol with
      | .error e => .error (e, { st with fs := fs₁ })
      | .ok found =>
        let st₁ := { st with fs := fs₁, frontier := unionStr st.frontier found }
        match processSolutions outRoot outpath (i + 1) st₁ rest with
        | .error e => .error e
        | .ok (st₂, paths) => .ok (st₂, relTo cpath outRoot :: paths)

/-- Process `lesson['pages']`: write `<name>.html`, scan the content for
further slugs, then the page's solutions. -/
def processPages (outRoot outpath : Path) :
    SL → List (String × Page) → Except (String × SL) (SL × List (String × StoredPage))
  | st, [] => .ok (st, [])
  | st, (name, pg) :: rest =>
    match writeViaJoin st.fs outpath (name ++ ".html") with
    | .error e => .error (e, st)
    | .ok (fs₁, cpath) =>
      match findLessonSlugs pg.content with
      | .error e => .error (e, { st with fs := fs₁ })
      | .ok found =>
        let st₁ := { st with fs := fs₁, frontier := unionStr st.frontier found }
        match processSolutions outRoot outpath 0 st₁ pg.solutions with
        | .error e => .error e
        | .ok (st₂, solPaths) =>
          match processPages outRoot outpath st₂ rest with
          | .error e => .error e
          | .ok (st₃, stored) =>
            .ok (st₃, (name, ⟨relTo cpath outRoot, solPaths⟩) :: stored)

/-- Process `lesson['static_files']`: create `static/`, resolve the source
under the worktree, sanitize the destination name, and copy — but fail if
the destination already exists (no silent overwrite). -/
def processStatics (wt outRoot outpath : Path) :
    SL → List (String × String) → Except (String × SL) (SL × List (String × String))
  | st, [] => .ok (st, [])
  | st, (nm, srcRel) :: rest =>
    match joinpath outpath "static" with
    | .error e => .error (e, st)
    | .ok staticDir =>
      let fs₁ := st.fs.mkdirP staticDir
      match joinpath wt srcRel with
      | .error e => .error (e, { st with fs := fs₁ })
      | .ok srcpath =>
        match joinpath staticDir (sanitizeName nm) with
        | .error e => .error (e, { st with fs := fs₁ })
        | .ok destpath =>
          let newRel := relTo destpath outRoot
          let fs₂ := fs₁.mkdirP destpath.dropLast
          if fs₂.existsPath destpath then
            .error (String.mk (renderPath destpath) ++ " already exists",
                    { st with fs := fs₂ })
          else
            let st₁ := { st with fs := fs₂.copyFile srcpath destpath }
            match processStatics wt outRoot outpath st₁ rest with
            | .error e => .error e
            | .ok (st₂, entries) => .ok (st₂, (nm, newRel) :: entries)

/-- Process one returned lesson: record the slug as resolved, reject slugs
containing `.` (`ValueError(slug)`), create the lesson directory
exclusively, then pages and static files, and record the stored lesson. -/
def processLesson (wt outRoot : Path) (st : SL) (slug : String)
    (lesson : Lesson) : Except (String × SL) SL :=
  let st₀ := { st with done := insertStr st.done slug }
  if containsChar slug '.' then .error (slug, st₀)
  else
    match joinpath (outRoot ++ ["lessons"]) (toLowerStr slug) with
    | .error e => .error (e, st₀)
    | .ok outpath =>
      match st₀.fs.mkdirExcl outpath with
      | .error e => .error (e, st₀)
      | .ok fs₁ =>
        let st₁ := { st₀ with fs := fs₁ }
        match processPages outRoot outpath st₁ lesson.pages with
        | .error e => .error e
        | .ok (st₂, storedPages) =>
          match processStatics wt outRoot outpath st₂ lesson.static_files with
          | .error e => .error e
          | .ok (st₃, storedStatics) =>
            .ok { st₃ with
                  result := st₃.result ++ [(slug, ⟨storedPages, storedStatics⟩)] }

/-- Process the whole `data` mapping of one fetch, in order. -/
def processData (wt outRoot : Path) :
    SL → List (String × Lesson) → Except (String × SL) SL
  | st, [] => .ok st
  | st, (slug, lesson) :: rest =>
    match processLesson wt outRoot st slug lesson with
    | .error e => .error e
    | .ok st' => processData wt outRoot st' rest

/-- One round of `save_lessons`: fetch the sorted frontier in one batch
(`get_lessons`), process every returned lesson, then drop every resolved
slug from the frontier. -/
def stepRound (fetch : List String → List (String × Lesson))
    (wt outRoot : Path) (st : SL) : Except (String × SL) SL :=
  let batch := sortStrings st.frontier
  let st₀ := { st with fetchLog := st.fetchLog ++ [batch] }
  match processData wt outRoot st₀ (fetch batch) with
  | .error e => .error e
  | .ok st₁ =>
    .ok { st₁ with
          frontier := removeAll st₁.frontier st₁.done,
          doneLog := st₁.doneLog ++ [st₁.done] }

/-- The `for try_number in range(50)` loop with its `for`-`else` clause:
running out of rounds raises `Lessons are linked too deeply`. -/
def saveLessonsLoop (fetch : List String → List (String × Lesson))
    (wt outRoot : Path) : Nat → SL → Except (String × SL) SL
  | 0, st => .error ("Lessons are linked too deeply", st)
  | n + 1, st =>
    match stepRound fetch wt outRoot st with
    | .error e => .error e
    | .ok st' =>
      if st'.frontier.isEmpty then .ok st'
      else saveLessonsLoop fetch wt outRoot n st'

/-- The initial `save_lessons` state for a set of course slugs. -/
def SL.init (slugs : List String) : SL :=
  ⟨[], slugs.foldl insertStr [], [], FS.empty, [], []⟩

/-- `save_lessons(...)`: at most 50 rounds from the initial slug set. -/
def saveLessons (fetch : List String → List (String × Lesson))
    (wt outRoot : Path) (slugs : List String) : Except (String × SL) SL :=
  saveLessonsLoop fetch wt outRoot 50 (SL.init slugs)

/-- The machine state carried by a (terminated or failed) run. -/
def runState : Except (String × SL) SL → SL
  | .ok st => st
  | .error (_, st) => st

/-- Did the run succeed? -/
def runOk : Except (String × SL) SL → Bool
  | .ok _ => true
  | .error _ => false

/-- The error message of a failed run. -/
def runErrMsg : Except (String × SL) SL → Option String
  | .ok _ => none
  | .error (m, _) => some m

/-- `true` when the next `n` rounds from `st` all succeed and each leaves a
non-empty frontier (the formal reading of a reference graph that has not
stabilized within `n` rounds). -/
def roundsAllNonempty (fetch : List String → List (String × Lesson))
    (wt outRoot : Path) : Nat → SL → Bool
  | 0, _ => true
  | n + 1, st =>
    match stepRound fetch wt outRoot st with
    | .ok st' => !st'.frontier.isEmpty && roundsAllNonempty fetch wt outRoot n st'
    | .error _ => false

/-- The machine state carried by a processor outcome (ok or error). -/
def outState {α : Type} : Except (String × SL) (SL × α) → SL
  | .ok (st, _) => st
  | .error (_, st) => st

/-- The error message of a processor outcome, if any. -/
def outcomeErr {α : Type} : Except (String × SL) (SL × α) → Option String
  | .ok _ => none
  | .error (m, _) => some m

/-- Is this event a copy onto `dst`? -/
def isCopyTo (dst : Path) : FsEvent → Bool
  | .copyE _ d => d = dst
  | _ => false

/-- No slug resolved by the end of round `i` is part of the batch fetched
in any later round `j`. -/
def noRefetch (st : SL) : Prop :=
  ∀ i j, i < j → ∀ s, s ∈ st.doneLog.getD i [] → s ∉ st.fetchLog.getD j []

/-- The internal invariant of the resolution rounds: the two logs move in
lockstep, every logged resolved set is contained in the current one, the
frontier is disjoint from the resolved set, and no logged resolved slug is
in a later logged batch. -/
def slInv (st : SL) : Prop :=
  st.fetchLog.length = st.doneLog.length ∧
  (∀ d, d ∈ st.doneLog → ∀ s, s ∈ d → s ∈ st.done) ∧
  (∀ s, s ∈ st.frontier → s ∉ st.done) ∧
  noRefetch st

/-- A renderer result with no pages and no static files. -/
def emptyLesson : Lesson := ⟨[], []⟩

/-- A renderer result with one page whose markup holds one
`naucse:page?lesson=<t>` reference. -/
def linkLesson (t : String) : Lesson :=
  ⟨[("index", ⟨[Element.mk [("href", "naucse:page?lesson=" ++ t)] []], []⟩)], []⟩

/-- A renderer that returns an empty lesson for every requested slug. -/
def fetchPlain : List String → List (String × Lesson) :=
  fun batch => batch.map (fun s => (s, emptyLesson))

/-- A renderer where `intro` links to `setup` and everything else is
empty (the C6 scenario). -/
def fetchIntroSetup : List String → List (String × Lesson) :=
  fun batch =>
    batch.map (fun s => if s = "intro" then (s, linkLesson "setup") else (s, emptyLesson))

/-- A renderer where every fetched slug links to one further unseen slug:
a reference graph that never stabilizes. -/
def fetchGrowing : List String → List (String × Lesson) :=
  fun batch => batch.map (fun s => (s, linkLesson (s ++ "x")))

lemma mem_pathParents_iff (base p : Path) :
    base ∈ pathParents p ↔ base <+: p ∧ base ≠ p := by
  unfold pathParents
  simp only [List.mem_map, List.mem_range]
  constructor
  · rintro ⟨k, hk, rfl⟩
    refine ⟨⟨p.drop k, List.take_append_drop k p⟩, ?_⟩
    intro h
    have := congrArg List.length h
    simp [List.length_take, Nat.min_eq_left (Nat.le_of_lt hk)] at this
    omega
  · rintro ⟨hpre, hne⟩
    refine ⟨base.length, ?_, ?_⟩
    · rcases hpre with ⟨t, rfl⟩
      rcases t with _ | ⟨s, t⟩
      · simp at hne
      · simp
    · rcases hpre with ⟨t, rfl⟩
      exact List.take_left base t

lemma renderAux_fold_shift (l : List String) (a : List Char) :
    l.foldl (fun acc seg => acc ++ '/' :: seg.data) a = a ++ renderAux l := by
  induction l generalizing a with
  | nil => simp [renderAux]
  | cons x xs ih =>
    simp only [List.foldl_cons, renderAux]
    rw [ih (a ++ '/' :: x.data), ih ([] ++ '/' :: x.data)]
    simp

lemma renderAux_append (l₁ l₂ : List String) :
    renderAux (l₁ ++ l₂) = renderAux l₁ ++ renderAux l₂ := by
  unfold renderAux
  rw [List.foldl_append, renderAux_fold_shift]
  rfl

lemma renderAux_cons (s : String) (t : List String) :
    renderAux (s :: t) = '/' :: (s.data ++ renderAux t) := by
  unfold renderAux
  simp only [List.foldl_cons, List.nil_append]
  rw [renderAux_fold_shift]
  rfl

lemma renderPath_mono {base p : Path} (hpre : base <+: p) (hne : base ≠ p) :
    renderPath base <+: renderPath p := by
  rcases hpre with ⟨t, rfl⟩
  rcases t with _ | ⟨s, t⟩
  · simp at hne
  · unfold renderPath
    by_cases hb : base = []
    · subst hb
      rw [if_pos rfl, if_neg (by simp)]
      simp only [List.nil_append, renderAux_cons]
      exact ⟨s.data ++ renderAux t, rfl⟩
    · rw [if_neg hb, if_neg (by simp [hb])]
      rw [renderAux_append]
      exact ⟨renderAux (s :: t), rfl⟩

lemma joinpath_eq_ok_iff (base : Path) (frag : String) :
    joinpath base frag = .ok (resolvePath base frag) ↔ staysWithin base frag := by
  unfold joinpath staysWithin
  rcases Decidable.em (base ∈ pathParents (resolvePath base frag)) with h | h
  · simp only [if_pos h, true_iff]
    exact (mem_pathParents_iff base _).mp h
  · simp only [if_neg h]
    constructor
    · intro hcontra; cases hcontra
    · intro hs
      exact absurd ((mem_pathParents_iff base _).mpr hs) h

/-- C1: `joinpath(base, fragment)` fails with an error (and performs no
write) whenever the fragment's `..` segments or absolute-path override make
the resolved result escape `base`; whenever the resolved result stays
within `base`, it succeeds and the returned absolute path is textually
prefixed by `base`. -/
theorem joinpath_contains_result (base : Path) (frag : String) :
    (¬ staysWithin base frag →
      joinpath base frag = .error frag ∧
      ∀ fs : FS, writeViaJoin fs base frag = .error frag) ∧
    (staysWithin base frag →
      joinpath base frag = .ok (resolvePath base frag) ∧
      renderPath base <+: renderPath (resolvePath base frag)) := by
  constructor
  · intro hesc
    have herr : joinpath base frag = .error frag := by
      unfold joinpath
      rw [if_neg (fun hmem => hesc ((mem_pathParents_iff base _).mp hmem))]
    refine ⟨herr, fun fs => ?_⟩
    unfold writeViaJoin
    rw [herr]
  · intro hs
    refine ⟨(joinpath_eq_ok_iff base frag).mpr hs, ?_⟩
    exact renderPath_mono hs.1 hs.2

/-- C1 witness: the traversal fragment `../secret` is rejected by
`joinpath` (no write happens), while the in-tree fragment `a/b` resolves to
`/out/a/b`, which textually extends `/out`. -/
theorem joinpath_contains_result_witness :
    joinpath ["out"] "../secret" = .error "../secret" ∧
    writeViaJoin FS.empty ["out"] "../secret" = .error "../secret" ∧
    joinpath ["out"] "a/b" = .ok ["out", "a", "b"] := by
  have h1 := (joinpath_contains_result ["out"] "../secret").1 (by decide)
  have h2 := (joinpath_contains_result ["out"] "a/b").2 (by decide)
  refine ⟨h1.1, h1.2 FS.empty, ?_⟩
  have : resolvePath ["out"] "a/b" = ["out", "a", "b"] := by decide
  rw [h2.1, this]

/-- C4: ensuring an image twice with the same name issues exactly one
build: the first run (name absent from the runtime) writes the recipe and
builds once; on the second run the runtime reports the image exists, the
name is returned, and neither the recipe nor any build command runs (the
runtime state is unchanged). -/
theorem ensureImage_idempotent (rt : ContainerRuntime) (name : String)
    (recipe : List String) (aux : List (String × String))
    (habsent : name ∉ rt.images) :
    (ensureImage rt (some name) recipe aux).1 = name ∧
    (ensureImage rt (some name) recipe aux).2.builds
      = rt.builds ++ [⟨some name, recipe, aux⟩] ∧
    ensureImage (ensureImage rt (some name) recipe aux).2 (some name) recipe aux
      = (name, (ensureImage rt (some name) recipe aux).2) := by
  have h1 : ensureImage rt (some name) recipe aux
      = (name, ⟨name :: rt.images,
                rt.builds ++ [⟨some name, recipe, aux⟩]⟩) := by
    simp [ensureImage, habsent]
  rw [h1]
  refine ⟨rfl, rfl, ?_⟩
  simp [ensureImage]

/-- C4 witness: on an empty runtime, ensuring `img` twice builds once and
the second call leaves the runtime untouched. -/
theorem ensureImage_idempotent_witness :
    (ensureImage ⟨[], []⟩ (some "img") ["FROM fedora"] []).1 = "img" ∧
    (ensureImage ⟨[], []⟩ (some "img") ["FROM fedora"] []).2.builds
      = [⟨some "img", ["FROM fedora"], []⟩] ∧
    ensureImage (ensureImage ⟨[], []⟩ (some "img") ["FROM fedora"] []).2
        (some "img") ["FROM fedora"] []
      = ("img", (ensureImage ⟨[], []⟩ (some "img") ["FROM fedora"] []).2) := by
  have h := ensureImage_idempotent ⟨[], []⟩ "img" ["FROM fedora"] [] (by decide)
  simpa using h

/-- C10: `choose_get_image` returns the micropipenv route exactly when
`Pipfile.lock` is present, the piptools route exactly when only
`requirements.txt` is present, and `None` when neither is; invoking the
`None` route fails with Python's generic `TypeError`. -/
theorem chooseGetImage_routes :
    ∀ a b : Bool,
      (chooseGetImage a b = some .micropipenv ↔ a = true) ∧
      (chooseGetImage a b = some .piptools ↔ (a = false ∧ b = true)) ∧
      (chooseGetImage a b = none ↔ (a = false ∧ b = false)) ∧
      callGetImage (chooseGetImage false false)
        = .error "TypeError: NoneType object is not callable" := by
  intro a b
  refine ⟨?_, ?_, ?_, rfl⟩ <;> cases a <;> cases b <;> simp [chooseGetImage]

/-- C7 counterexample: there is no ceiling `M` on the major component alone
such that `save_course` rejects exactly the versions with major ≥ `M`:
version `(0, 4)` is rejected while `(0, 3)` is accepted, yet both have
major component 0. -/
theorem apiVersionGate_no_major_ceiling :
    ¬ ∃ M : Nat, ∀ v : Nat × Nat, (apiVersionGate v ≠ .ok ()) ↔ M ≤ v.1 := by
  rintro ⟨M, h⟩
  have hge : apiVersionGate (0, 4) = .error (apiVersionMsg (0, 4)) := rfl
  have h4 : M ≤ 0 := (h (0, 4)).mp (by rw [hge]; intro hco; cases hco)
  have h3 : apiVersionGate (0, 3) ≠ .ok () := (h (0, 3)).mpr h4
  exact h3 rfl

/-- C7 amended: `save_course` rejects the `api_version` pair, with a fatal
error naming the offending version, if and only if the pair is
lexicographically ≥ the fixed ceiling `(0, 4)` (major > 0, or major = 0 and
minor ≥ 4); all pairs below that ceiling are accepted. -/
theorem apiVersionGate_lex_ceiling :
    ∀ v : Nat × Nat,
      (apiVersionGate v = .error (apiVersionMsg v)
        ↔ (0 < v.1 ∨ (v.1 = 0 ∧ 4 ≤ v.2))) ∧
      (apiVersionGate v = .ok ()
        ↔ ¬(0 < v.1 ∨ (v.1 = 0 ∧ 4 ≤ v.2))) := by
  rintro ⟨a, b⟩
  have hb : lexGeVersion (a, b) (0, 4) = true ↔ (0 < a ∨ (a = 0 ∧ 4 ≤ b)) := by
    simp [lexGeVersion]
  by_cases hcond : lexGeVersion (a, b) (0, 4) = true
  · have hp := hb.mp hcond
    unfold apiVersionGate
    rw [if_pos hcond]
    constructor
    · simpa using hp
    · constructor
      · intro hco; cases hco
      · intro hco; exact absurd hp hco
  · have hp : ¬(0 < a ∨ (a = 0 ∧ 4 ≤ b)) := fun hx => hcond (hb.mpr hx)
    unfold apiVersionGate
    rw [if_neg hcond]
    constructor
    · constructor
      · intro hco; cases hco
      · intro hx; exact absurd hx hp
    · simpa using hp

lemma ensureImage_fst (rt : ContainerRuntime) (n : String)
    (recipe : List String) (aux : List (String × String)) :
    (ensureImage rt (some n) recipe aux).1 = n := by
  simp only [ensureImage]
  by_cases h : rt.images.contains n = true
  · rw [if_pos h]
  · rw [if_neg h]

/-- Sanity check of the embedded SHA-256 against the standard test vector
for the empty message. -/
lemma sha256Hex_nil :
    sha256Hex []
      = "e3b0c44298fc1c149afbf4c8996fb92427ae41e4649b934ca495991b7852b855" := by
  decide

/-- C5: the dependency-stage image name is a pure function of the Python
version and the exact byte content of the pinned listing: it always equals
the version-tagged prefix plus the SHA-256 hex digest of the listing's
bytes, it does not depend on the container-runtime state, and byte-identical
listings yield the same name. -/
theorem getImageFromRequirements_name_pure
    (ver reqs reqs₂ : String) (rt rt₂ : ContainerRuntime) :
    (getImageFromRequirements rt ver reqs).1
      = "localhost/naucse-py" ++ ver ++ "-" ++ sha256Hex (utf8Bytes reqs) ∧
    (getImageFromRequirements rt ver reqs).1
      = (getImageFromRequirements rt₂ ver reqs).1 ∧
    (utf8Bytes reqs = utf8Bytes reqs₂ →
      (getImageFromRequirements rt ver reqs).1
        = (getImageFromRequirements rt₂ ver reqs₂).1) := by
  have hname : ∀ rt' : ContainerRuntime,
      (getImageFromRequirements rt' ver reqs).1
        = "localhost/naucse-py" ++ ver ++ "-" ++ sha256Hex (utf8Bytes reqs) := by
    intro rt'
    unfold getImageFromRequirements
    rw [ensureImage_fst]
  refine ⟨hname rt, (hname rt).trans (hname rt₂).symm, ?_⟩
  intro hbytes
  have hname₂ : (getImageFromRequirements rt₂ ver reqs₂).1
      = "localhost/naucse-py" ++ ver ++ "-" ++ sha256Hex (utf8Bytes reqs₂) := by
    unfold getImageFromRequirements
    rw [ensureImage_fst]
  rw [hname rt, hname₂, hbytes]

/-- C5 witness: instantiating the purity theorem at a concrete listing on
two different runtime states. -/
theorem getImageFromRequirements_name_pure_witness :
    (getImageFromRequirements ⟨[], []⟩ "3.6" "flask==1.0\n").1
      = "localhost/naucse-py3.6-"
          ++ sha256Hex (utf8Bytes "flask==1.0\n") ∧
    (getImageFromRequirements ⟨[], []⟩ "3.6" "flask==1.0\n").1
      = (getImageFromRequirements ⟨["x"], []⟩ "3.6" "flask==1.0\n").1 := by
  have h := getImageFromRequirements_name_pure "3.6" "flask==1.0\n"
    "flask==1.0\n" ⟨[], []⟩ ⟨["x"], []⟩
  exact ⟨h.1, h.2.2 rfl⟩

lemma mem_insertStr {l : List String} {s x : String} :
    x ∈ insertStr l s ↔ x ∈ l ∨ x = s := by
  unfold insertStr
  by_cases h : l.contains s = true
  · rw [if_pos h]
    have hm : s ∈ l := by simpa using h
    constructor
    · exact Or.inl
    · rintro (hx | rfl)
      · exact hx
      · exact hm
  · rw [if_neg h]
    simp

lemma mem_insertStr_of_mem {l : List String} {s x : String} (h : x ∈ l) :
    x ∈ insertStr l s := mem_insertStr.mpr (Or.inl h)

lemma self_mem_insertStr {l : List String} {s : String} :
    s ∈ insertStr l s := mem_insertStr.mpr (Or.inr rfl)

lemma mem_insSorted {s x : String} : ∀ {l : List String},
    x ∈ insSorted s l ↔ x = s ∨ x ∈ l := by
  intro l
  induction l with
  | nil => simp [insSorted]
  | cons y ys ih =>
    unfold insSorted
    by_cases h : strLt y s = true
    · rw [if_pos h]
      simp only [List.mem_cons, ih]
      tauto
    · rw [if_neg h]
      simp only [List.mem_cons]

lemma mem_sortStrings {x : String} : ∀ {l : List String},
    x ∈ sortStrings l ↔ x ∈ l := by
  intro l
  induction l with
  | nil => simp [sortStrings]
  | cons y ys ih =>
    unfold sortStrings at ih ⊢
    simp only [List.foldr_cons, mem_insSorted, List.mem_cons, ih]

lemma not_mem_of_mem_removeAll {l rem : List String} {x : String}
    (h : x ∈ removeAll l rem) : x ∉ rem := by
  unfold removeAll at h
  have := List.of_mem_filter h
  intro hx
  simp at this
  exact this hx

lemma processSolutions_meta (outRoot outpath : Path) :
    ∀ (sols : List (List Element)) (i : Nat) (st : SL),
      (outState (processSolutions outRoot outpath i st sols)).fetchLog = st.fetchLog ∧
      (outState (processSolutions outRoot outpath i st sols)).doneLog = st.doneLog ∧
      (outState (processSolutions outRoot outpath i st sols)).done = st.done := by
  intro sols
  induction sols with
  | nil => intro i st; simp [processSolutions, outState]
  | cons sol rest ih =>
    intro i st
    unfold processSolutions
    split
    · simp [outState]
    · rename_i fs₁ cpath heqw
      split
      · simp [outState]
      · rename_i found heqf
        dsimp only
        split
        · rename_i e heqr
          have := ih (i + 1)
            { st with fs := fs₁, frontier := unionStr st.frontier found }
          rw [heqr] at this
          simpa [outState] using this
        · rename_i st₂ paths heqr
          have := ih (i + 1)
            { st with fs := fs₁, frontier := unionStr st.frontier found }
          rw [heqr] at this
          simpa [outState] using this

lemma processPages_meta (outRoot outpath : Path) :
    ∀ (pages : List (String × Page)) (st : SL),
      (outState (processPages outRoot outpath st pages)).fetchLog = st.fetchLog ∧
      (outState (processPages outRoot outpath st pages)).doneLog = st.doneLog ∧
      (outState (processPages outRoot outpath st pages)).done = st.done := by
  intro pages
  induction pages with
  | nil => intro st; simp [processPages, outState]
  | cons pg rest ih =>
    intro st
    obtain ⟨name, page⟩ := pg
    unfold processPages
    split
    · simp [outState]
    · rename_i fs₁ cpath heqw
      split
      · simp [outState]
      · rename_i found heqf
        dsimp only
        split
        · rename_i e heqs
          have := processSolutions_meta outRoot outpath page.solutions 0
            { st with fs := fs₁, frontier := unionStr st.frontier found }
          rw [heqs] at this
          simpa [outState] using this
        · rename_i st₂ solPaths heqs
          have h1 := processSolutions_meta outRoot outpath page.solutions 0
            { st with fs := fs₁, frontier := unionStr st.frontier found }
          rw [heqs] at h1
          simp only [outState] at h1
          split
          · rename_i e heqr
            have h2 := ih st₂
            rw [heqr] at h2
            simp only [outState] at h2
            simp only [outState]
            exact ⟨h2.1.trans h1.1, (h2.2.1.trans h1.2.1), h2.2.2.trans h1.2.2⟩
          · rename_i st₃ stored heqr
            have h2 := ih st₂
            rw [heqr] at h2
            simp only [outState] at h2
            simp only [outState]
            exact ⟨h2.1.trans h1.1, (h2.2.1.trans h1.2.1), h2.2.2.trans h1.2.2⟩

lemma processStatics_meta (wt outRoot outpath : Path) :
    ∀ (entries : List (String × String)) (st : SL),
      (outState (processStatics wt outRoot outpath st entries)).fetchLog = st.fetchLog ∧
      (outState (processStatics wt outRoot outpath st entries)).doneLog = st.doneLog ∧
      (outState (processStatics wt outRoot outpath st entries)).done = st.done := by
  intro entries
  induction entries with
  | nil => intro st; simp [processStatics, outState]
  | cons ent rest ih =>
    intro st
    obtain ⟨nm, srcRel⟩ := ent
    unfold processStatics
    split
    · simp [outState]
    · rename_i staticDir heq₁
      split
      · simp [outState]
      · rename_i srcpath heq₂
        dsimp only
        split
        · simp [outState]
        · rename_i destpath heq₃
          split
          · simp [outState]
          · split
            · rename_i e heqr
              have := ih { st with fs := (((st.fs.mkdirP staticDir).mkdirP destpath.dropLast).copyFile srcpath destpath) }
              rw [heqr] at this
              simpa [outState] using this
            · rename_i st₂ entries₂ heqr
              have := ih { st with fs := (((st.fs.mkdirP staticDir).mkdirP destpath.dropLast).copyFile srcpath destpath) }
              rw [heqr] at this
              simpa [outState] using this

lemma processLesson_meta (wt outRoot : Path) (st : SL) (slug : String)
    (lesson : Lesson) :
    (runState (processLesson wt outRoot st slug lesson)).fetchLog = st.fetchLog ∧
    (runState (processLesson wt outRoot st slug lesson)).doneLog = st.doneLog ∧
    (runState (processLesson wt outRoot st slug lesson)).done
      = insertStr st.done slug := by
  unfold processLesson
  dsimp only
  split
  · simp [runState]
  · split
    · simp [runState]
    · rename_i outpath heqo
      split
      · simp [runState]
      · rename_i fs₁ heqm
        split
        · rename_i e heqp
          have := processPages_meta outRoot outpath lesson.pages
            { st with done := insertStr st.done slug, fs := fs₁ }
          rw [heqp] at this
          simpa [runState, outState] using this
        · rename_i st₂ storedPages heqp
          have h1 := processPages_meta outRoot outpath lesson.pages
            { st with done := insertStr st.done slug, fs := fs₁ }
          rw [heqp] at h1
          simp only [outState] at h1
          split
          · rename_i e heqs
            have h2 := processStatics_meta wt outRoot outpath lesson.static_files st₂
            rw [heqs] at h2
            simp only [outState] at h2
            simp only [runState]
            exact ⟨h2.1.trans h1.1, h2.2.1.trans h1.2.1, h2.2.2.trans h1.2.2⟩
          · rename_i st₃ storedStatics heqs
            have h2 := processStatics_meta wt outRoot outpath lesson.static_files st₂
            rw [heqs] at h2
            simp only [outState] at h2
            simp only [runState]
            exact ⟨h2.1.trans h1.1, h2.2.1.trans h1.2.1, h2.2.2.trans h1.2.2⟩

lemma processData_meta (wt outRoot : Path) :
    ∀ (entries : List (String × Lesson)) (st : SL),
      (runState (processData wt outRoot st entries)).fetchLog = st.fetchLog ∧
      (runState (processData wt outRoot st entries)).doneLog = st.doneLog ∧
      (∀ s, s ∈ st.done → s ∈ (runState (processData wt outRoot st entries)).done) := by
  intro entries
  induction entries with
  | nil => intro st; simp [processData, runState]
  | cons ent rest ih =>
    intro st
    obtain ⟨slug, lesson⟩ := ent
    unfold processData
    split
    · rename_i e heql
      have := processLesson_meta wt outRoot st slug lesson
      rw [heql] at this
      simp only [runState] at this ⊢
      refine ⟨this.1, this.2.1, ?_⟩
      intro s hs
      rw [this.2.2]
      exact mem_insertStr_of_mem hs
    · rename_i st₁ heql
      have h1 := processLesson_meta wt outRoot st slug lesson
      rw [heql] at h1
      simp only [runState] at h1
      have h2 := ih st₁
      refine ⟨h2.1.trans h1.1, h2.2.1.trans h1.2.1, ?_⟩
      intro s hs
      exact h2.2.2 s (by rw [h1.2.2]; exact mem_insertStr_of_mem hs)

lemma stepRound_fetchLog (fetch : List String → List (String × Lesson))
    (wt outRoot : Path) (st : SL) :
    (runState (stepRound fetch wt outRoot st)).fetchLog
      = st.fetchLog ++ [sortStrings st.frontier] := by
  unfold stepRound
  dsimp only
  split
  · rename_i e heq
    have := processData_meta wt outRoot (fetch (sortStrings st.frontier))
      { st with fetchLog := st.fetchLog ++ [sortStrings st.frontier] }
    rw [heq] at this
    simpa [runState] using this.1
  · rename_i st₁ heq
    have := processData_meta wt outRoot (fetch (sortStrings st.frontier))
      { st with fetchLog := st.fetchLog ++ [sortStrings st.frontier] }
    rw [heq] at this
    simp only [runState] at this ⊢
    exact this.1

/-- C6: starting from `{"intro"}`, where fetching `intro` returns a page
embedding a reference of the recognized fixed link form (scheme constant of
the project, path `page`, query `lesson=setup`), one resolution round
resolves `intro` and contributes `setup` as the new candidate slug, so the
known-slug set is exactly `{intro, setup}`, and the finished run resolves
exactly those two slugs. -/
theorem linked_slug_discovered :
    runOk (stepRound fetchIntroSetup ["wt"] ["out"] (SL.init ["intro"])) = true ∧
    (runState (stepRound fetchIntroSetup ["wt"] ["out"] (SL.init ["intro"]))).done
      = ["intro"] ∧
    (runState (stepRound fetchIntroSetup ["wt"] ["out"] (SL.init ["intro"]))).frontier
      = ["setup"] ∧
    runOk (saveLessons fetchIntroSetup ["wt"] ["out"] ["intro"]) = true ∧
    (runState (saveLessons fetchIntroSetup ["wt"] ["out"] ["intro"])).result.map Prod.fst
      = ["intro", "setup"] := by
  decide

/-- C2 counterexample: the slug `a/b` (which contains a path separator) is
*not* rejected: the run fetches the batch `["a/b"]`, accepts the slug, and
completes with `a/b` resolved. -/
theorem slashSlug_fetched_and_accepted :
    runOk (saveLessons fetchPlain ["wt"] ["out"] ["a/b"]) = true ∧
    (runState (saveLessons fetchPlain ["wt"] ["out"] ["a/b"])).fetchLog
      = [["a/b"]] ∧
    (runState (saveLessons fetchPlain ["wt"] ["out"] ["a/b"])).result.map Prod.fst
      = ["a/b"] := by
  decide

/-- C2 amended: the character that makes resource resolution reject a slug
as a fatal data-integrity error is `.` (not a path separator), and the
rejection happens after the containing batch was fetched — every round
logs its fetch before any slug is examined — but before any filesystem
interaction for that slug: the error state differs from the pre-lesson
state only by marking the slug resolved. -/
theorem dotSlug_rejected_after_fetch :
    (∀ (wt outRoot : Path) (st : SL) (slug : String) (lesson : Lesson),
       containsChar slug '.' = true →
       processLesson wt outRoot st slug lesson
         = .error (slug, { st with done := insertStr st.done slug })) ∧
    (∀ (fetch : List String → List (String × Lesson)) (wt outRoot : Path) (st : SL),
       (runState (stepRound fetch wt outRoot st)).fetchLog
         = st.fetchLog ++ [sortStrings st.frontier]) := by
  constructor
  · intro wt outRoot st slug lesson h
    unfold processLesson
    dsimp only
    rw [if_pos h]
  · intro fetch wt outRoot st
    exact stepRound_fetchLog fetch wt outRoot st

/-- C2 amended witness: the slug `a.b` is rejected with `ValueError` and
the error state shows no filesystem interaction for it. -/
theorem dotSlug_rejected_after_fetch_witness :
    containsChar "a.b" '.' = true ∧
    processLesson ["wt"] ["out"] (SL.init []) "a.b" emptyLesson
      = .error ("a.b",
          { SL.init [] with done := insertStr (SL.init []).done "a.b" }) := by
  exact ⟨by decide,
    dotSlug_rejected_after_fetch.1 ["wt"] ["out"] (SL.init []) "a.b"
      emptyLesson (by decide)⟩

lemma saveLessonsLoop_deep (fetch : List String → List (String × Lesson))
    (wt outRoot : Path) :
    ∀ (n : Nat) (st : SL), roundsAllNonempty fetch wt outRoot n st = true →
      saveLessonsLoop fetch wt outRoot n st
        = .error ("Lessons are linked too deeply",
                  runState (saveLessonsLoop fetch wt outRoot n st)) ∧
      (runState (saveLessonsLoop fetch wt outRoot n st)).fetchLog.length
        = st.fetchLog.length + n := by
  intro n
  induction n with
  | zero =>
    intro st h
    simp [saveLessonsLoop, runState]
  | succ n ih =>
    intro st h
    unfold roundsAllNonempty at h
    cases hs : stepRound fetch wt outRoot st with
    | error e => rw [hs] at h; cases h
    | ok st' =>
      rw [hs] at h
      dsimp only at h
      have h1 : st'.frontier.isEmpty = false := by
        cases hfr : st'.frontier.isEmpty
        · rfl
        · rw [hfr] at h; simp at h
      have h2 : roundsAllNonempty fetch wt outRoot n st' = true := by
        rw [Bool.and_eq_true] at h; exact h.2
      have hlen : st'.fetchLog.length = st.fetchLog.length + 1 := by
        have := stepRound_fetchLog fetch wt outRoot st
        rw [hs] at this
        simp only [runState] at this
        rw [this]
        simp
      have hloop : saveLessonsLoop fetch wt outRoot (n + 1) st
          = saveLessonsLoop fetch wt outRoot n st' := by
        conv_lhs => unfold saveLessonsLoop
        rw [hs]
        dsimp only
        simp [h1]
      have := ih st' h2
      rw [hloop]
      exact ⟨this.1, by rw [this.2, hlen]; omega⟩

/-- C3: for a reference graph that never stabilizes — each of the first 50
rounds succeeds and leaves a non-empty frontier — `save_lessons` performs
exactly 50 batch fetches, then fails with the convergence error `Lessons
are linked too deeply` instead of looping further or succeeding. -/
theorem saveLessons_round_cap (fetch : List String → List (String × Lesson))
    (wt outRoot : Path) (slugs : List String)
    (h : roundsAllNonempty fetch wt outRoot 50 (SL.init slugs) = true) :
    saveLessons fetch wt outRoot slugs
      = .error ("Lessons are linked too deeply",
                runState (saveLessons fetch wt outRoot slugs)) ∧
    (runState (saveLessons fetch wt outRoot slugs)).fetchLog.length = 50 := by
  have hd := saveLessonsLoop_deep fetch wt outRoot 50 (SL.init slugs) h
  unfold saveLessons
  exact ⟨hd.1, by simpa [SL.init] using hd.2⟩

/-- C3 witness: under the renderer where every slug links to one further
unseen slug, the run from `{"a"}` fetches 50 batches and fails with the
convergence error. -/
theorem saveLessons_round_cap_witness :
    roundsAllNonempty fetchGrowing ["wt"] ["out"] 50 (SL.init ["a"]) = true ∧
    (runState (saveLessons fetchGrowing ["wt"] ["out"] ["a"])).fetchLog.length
      = 50 ∧
    saveLessons fetchGrowing ["wt"] ["out"] ["a"]
      = .error ("Lessons are linked too deeply",
                runState (saveLessons fetchGrowing ["wt"] ["out"] ["a"])) := by
  have hna : roundsAllNonempty fetchGrowing ["wt"] ["out"] 50 (SL.init ["a"])
      = true := by decide
  have h := saveLessons_round_cap fetchGrowing ["wt"] ["out"] ["a"] hna
  exact ⟨hna, h.2, h.1⟩

lemma joinpath_ok_strict {b : Path} {f : String} {r : Path}
    (h : joinpath b f = .ok r) : b <+: r ∧ b ≠ r := by
  unfold joinpath at h
  by_cases hmem : b ∈ pathParents (resolvePath b f)
  · rw [if_pos hmem] at h
    cases h
    exact (mem_pathParents_iff b _).mp hmem
  · rw [if_neg hmem] at h
    cases h

lemma joinpath_ok_length {b : Path} {f : String} {r : Path}
    (h : joinpath b f = .ok r) : b.length < r.length := by
  obtain ⟨⟨t, rfl⟩, hne⟩ := joinpath_ok_strict h
  rcases t with _ | ⟨s, t⟩
  · simp at hne
  · simp

lemma length_le_of_mem_ancestorsIncl {q p : Path}
    (h : q ∈ ancestorsIncl p) : q.length ≤ p.length := by
  unfold ancestorsIncl at h
  simp only [List.mem_map, List.mem_range] at h
  obtain ⟨k, _, rfl⟩ := h
  simp [List.length_take]

lemma existsPath_mkdirP_iff (fs : FS) (p q : Path) :
    (fs.mkdirP p).existsPath q = true
      ↔ fs.existsPath q = true ∨ q ∈ ancestorsIncl p := by
  simp [FS.existsPath, FS.mkdirP]
  tauto

lemma existsPath_mkdirP_longer (fs : FS) (p q : Path)
    (hlen : p.length < q.length) :
    (fs.mkdirP p).existsPath q = fs.existsPath q := by
  have hq : q ∉ ancestorsIncl p := fun hmem =>
    absurd (length_le_of_mem_ancestorsIncl hmem) (by omega)
  cases hex : fs.existsPath q
  · cases hL : (fs.mkdirP p).existsPath q
    · rfl
    · exfalso
      rcases (existsPath_mkdirP_iff fs p q).mp hL with h | h
      · rw [hex] at h; cases h
      · exact hq h
  · exact (existsPath_mkdirP_iff fs p q).mpr (Or.inl hex)

lemma existsPath_mkdirP_of_true (fs : FS) (p q : Path)
    (h : fs.existsPath q = true) : (fs.mkdirP p).existsPath q = true :=
  (existsPath_mkdirP_iff fs p q).mpr (Or.inl h)

lemma mem_files_copyFile (fs : FS) (src dst : Path) :
    dst ∈ (fs.copyFile src dst).files := by
  unfold FS.copyFile
  dsimp only
  split
  · rename_i h; simpa using h
  · exact List.mem_append_right _ (by simp)

lemma existsPath_of_mem_files {fs : FS} {p : Path} (h : p ∈ fs.files) :
    fs.existsPath p = true := by
  simp only [FS.existsPath, Bool.or_eq_true, List.elem_eq_mem, decide_eq_true_eq]
  exact Or.inl h

lemma copyFile_files_mono (fs : FS) (src dst : Path) {q : Path}
    (h : q ∈ fs.files) : q ∈ (fs.copyFile src dst).files := by
  unfold FS.copyFile
  dsimp only
  split
  · exact h
  · exact List.mem_append_left _ h

lemma mkdirP_files (fs : FS) (p : Path) : (fs.mkdirP p).files = fs.files := rfl

lemma processStatics_cons_fresh
    (wt outRoot outpath : Path) (st : SL) (nm srcRel : String)
    (rest : List (String × String)) (staticDir srcpath destpath : Path)
    (hst : joinpath outpath "static" = .ok staticDir)
    (hsrc : joinpath wt srcRel = .ok srcpath)
    (hdst : joinpath staticDir (sanitizeName nm) = .ok destpath)
    (hfree : ((st.fs.mkdirP staticDir).mkdirP destpath.dropLast).existsPath destpath
      = false) :
    processStatics wt outRoot outpath st ((nm, srcRel) :: rest)
      = (match processStatics wt outRoot outpath
            { st with fs := (((st.fs.mkdirP staticDir).mkdirP destpath.dropLast).copyFile srcpath destpath) }
            rest with
         | .error e => .error e
         | .ok (st₂, entries) => .ok (st₂, (nm, relTo destpath outRoot) :: entries)) := by
  simp only [processStatics, hst, hsrc, hdst, hfree]
  rfl

lemma processStatics_cons_exists
    (wt outRoot outpath : Path) (st : SL) (nm srcRel : String)
    (rest : List (String × String)) (staticDir srcpath destpath : Path)
    (hst : joinpath outpath "static" = .ok staticDir)
    (hsrc : joinpath wt srcRel = .ok srcpath)
    (hdst : joinpath staticDir (sanitizeName nm) = .ok destpath)
    (hex : ((st.fs.mkdirP staticDir).mkdirP destpath.dropLast).existsPath destpath
      = true) :
    processStatics wt outRoot outpath st ((nm, srcRel) :: rest)
      = .error (String.mk (renderPath destpath) ++ " already exists",
                { st with fs := (st.fs.mkdirP staticDir).mkdirP destpath.dropLast }) := by
  simp only [processStatics, hst, hsrc, hdst, hex]
  rfl

/-- C9: if two static files of a lesson map to the same sanitized
destination path, the second is a fatal `… already exists` error raised
before its copy: exactly one copy to that destination is performed (the
first).  Moreover a destination that already exists is never silently
overwritten: processing an entry whose destination exists fails with the
same error and performs no copy to it at all. -/
theorem static_duplicate_fatal :
    (∀ (wt outRoot outpath : Path) (st : SL) (n₁ p₁ n₂ p₂ : String)
       (staticDir src₁ src₂ dest : Path),
       joinpath outpath "static" = .ok staticDir →
       joinpath wt p₁ = .ok src₁ →
       joinpath wt p₂ = .ok src₂ →
       joinpath staticDir (sanitizeName n₁) = .ok dest →
       sanitizeName n₁ = sanitizeName n₂ →
       st.fs.existsPath dest = false →
       outcomeErr (processStatics wt outRoot outpath st [(n₁, p₁), (n₂, p₂)])
         = some (String.mk (renderPath dest) ++ " already exists") ∧
       (outState (processStatics wt outRoot outpath st [(n₁, p₁), (n₂, p₂)])).fs.events.filter (isCopyTo dest)
         = st.fs.events.filter (isCopyTo dest) ++ [FsEvent.copyE src₁ dest]) ∧
    (∀ (wt outRoot outpath : Path) (st : SL) (n₁ p₁ : String)
       (staticDir src₁ dest : Path),
       joinpath outpath "static" = .ok staticDir →
       joinpath wt p₁ = .ok src₁ →
       joinpath staticDir (sanitizeName n₁) = .ok dest →
       st.fs.existsPath dest = true →
       outcomeErr (processStatics wt outRoot outpath st [(n₁, p₁)])
         = some (String.mk (renderPath dest) ++ " already exists") ∧
       (outState (processStatics wt outRoot outpath st [(n₁, p₁)])).fs.events.filter (isCopyTo dest)
         = st.fs.events.filter (isCopyTo dest)) := by
  constructor
  · intro wt outRoot outpath st n₁ p₁ n₂ p₂ staticDir src₁ src₂ dest
      hst h1 h2 hd hsame hfresh
    have hlen1 : staticDir.length < dest.length := joinpath_ok_length hd
    have hlen2 : dest.dropLast.length < dest.length := by
      simp only [List.length_dropLast]
      omega
    have hfree : ((st.fs.mkdirP staticDir).mkdirP dest.dropLast).existsPath dest
        = false := by
      rw [existsPath_mkdirP_longer _ _ _ hlen2,
          existsPath_mkdirP_longer _ _ _ hlen1]
      exact hfresh
    have hdst₂ : joinpath staticDir (sanitizeName n₂) = .ok dest := by
      rw [← hsame]; exact hd
    rw [processStatics_cons_fresh wt outRoot outpath st n₁ p₁ [(n₂, p₂)]
      staticDir src₁ dest hst h1 hd hfree]
    have hex₂ : ((({ st with fs := (((st.fs.mkdirP staticDir).mkdirP dest.dropLast).copyFile src₁ dest) } : SL).fs.mkdirP staticDir).mkdirP dest.dropLast).existsPath dest
        = true := by
      apply existsPath_mkdirP_of_true
      apply existsPath_mkdirP_of_true
      exact existsPath_of_mem_files (mem_files_copyFile _ src₁ dest)
    rw [processStatics_cons_exists wt outRoot outpath
      { st with fs := (((st.fs.mkdirP staticDir).mkdirP dest.dropLast).copyFile src₁ dest) }
      n₂ p₂ [] staticDir src₂ dest hst h2 hdst₂ hex₂]
    constructor
    · rfl
    · simp [outState, FS.mkdirP, FS.copyFile, isCopyTo, List.filter_append]
  · intro wt outRoot outpath st n₁ p₁ staticDir src₁ dest hst h1 hd hex
    have hex' : ((st.fs.mkdirP staticDir).mkdirP dest.dropLast).existsPath dest
        = true :=
      existsPath_mkdirP_of_true _ _ _ (existsPath_mkdirP_of_true _ _ _ hex)
    rw [processStatics_cons_exists wt outRoot outpath st n₁ p₁ []
      staticDir src₁ dest hst h1 hd hex']
    constructor
    · rfl
    · simp [outState, FS.mkdirP, isCopyTo, List.filter_append]

/-- C9 witness: `Logo.PNG` and `logo.png` sanitize to the same destination
`/out/lessons/l/static/logo.png`; the duplicate is fatal after exactly one
copy, and a pre-existing destination is fatal with no copy. -/
theorem static_duplicate_fatal_witness :
    (outcomeErr (processStatics ["wt"] ["out"] ["out", "lessons", "l"]
        (SL.init []) [("Logo.PNG", "img/logo.png"), ("logo.png", "img/logo2.png")])
      = some (String.mk (renderPath ["out", "lessons", "l", "static", "logo.png"])
          ++ " already exists") ∧
     (outState (processStatics ["wt"] ["out"] ["out", "lessons", "l"]
        (SL.init []) [("Logo.PNG", "img/logo.png"), ("logo.png", "img/logo2.png")])).fs.events.filter (isCopyTo ["out", "lessons", "l", "static", "logo.png"])
      = (SL.init []).fs.events.filter (isCopyTo ["out", "lessons", "l", "static", "logo.png"])
          ++ [FsEvent.copyE ["wt", "img", "logo.png"]
                ["out", "lessons", "l", "static", "logo.png"]]) ∧
    (outcomeErr (processStatics ["wt"] ["out"] ["out", "lessons", "l"]
        { SL.init [] with fs := ⟨[["out", "lessons", "l", "static", "logo.png"]], [], []⟩ }
        [("Logo.PNG", "img/logo.png")])
      = some (String.mk (renderPath ["out", "lessons", "l", "static", "logo.png"])
          ++ " already exists")) := by
  have hA := static_duplicate_fatal.1 ["wt"] ["out"] ["out", "lessons", "l"]
    (SL.init []) "Logo.PNG" "img/logo.png" "logo.png" "img/logo2.png"
    ["out", "lessons", "l", "static"] ["wt", "img", "logo.png"]
    ["wt", "img", "logo2.png"] ["out", "lessons", "l", "static", "logo.png"]
    rfl rfl rfl rfl (by decide) (by decide)
  have hB := static_duplicate_fatal.2 ["wt"] ["out"] ["out", "lessons", "l"]
    { SL.init [] with fs := ⟨[["out", "lessons", "l", "static", "logo.png"]], [], []⟩ }
    "Logo.PNG" "img/logo.png"
    ["out", "lessons", "l", "static"] ["wt", "img", "logo.png"]
    ["out", "lessons", "l", "static", "logo.png"]
    rfl rfl rfl (by decide)
  exact ⟨hA, hB.1⟩

lemma inv_batch_disjoint {st : SL} (hinv : slInv st) {s : String}
    {d : List String} (hd : d ∈ st.doneLog) (hs : s ∈ d) :
    s ∉ sortStrings st.frontier := by
  intro hb
  exact hinv.2.2.1 s (mem_sortStrings.mp hb) (hinv.2.1 d hd s hs)

lemma noRefetch_of_fields {st' st : SL} (hinv : slInv st)
    (hf : st'.fetchLog = st.fetchLog ++ [sortStrings st.frontier])
    (hd : st'.doneLog = st.doneLog ∨ ∃ dn, st'.doneLog = st.doneLog ++ [dn]) :
    noRefetch st' := by
  intro i j hij s hsi
  rw [hf]
  by_cases hj : j < st.fetchLog.length
  · rw [List.getD_append _ _ _ _ hj]
    have hi : i < st.doneLog.length := by rw [← hinv.1]; omega
    have hsi' : s ∈ st.doneLog.getD i [] := by
      rcases hd with hdl | ⟨dn, hdl⟩
      · rwa [hdl] at hsi
      · rwa [hdl, List.getD_append _ _ _ _ hi] at hsi
    exact hinv.2.2.2 i j hij s hsi'
  · by_cases hj2 : j = st.fetchLog.length
    · subst hj2
      rw [List.getD_append_right _ _ _ _ (le_refl _)]
      simp only [Nat.sub_self, List.getD]
      have hi : i < st.doneLog.length := by rw [← hinv.1]; omega
      have hsi' : s ∈ st.doneLog.getD i [] := by
        rcases hd with hdl | ⟨dn, hdl⟩
        · rwa [hdl] at hsi
        · rwa [hdl, List.getD_append _ _ _ _ hi] at hsi
      have hmem : st.doneLog.getD i [] ∈ st.doneLog := by
        rw [List.getD_eq_getElem _ _ hi]
        exact List.getElem_mem hi
      simpa using inv_batch_disjoint hinv hmem hsi'
    · have hge : (st.fetchLog ++ [sortStrings st.frontier]).length ≤ j := by
        simp only [List.length_append, List.length_cons, List.length_nil]
        omega
      rw [List.getD_eq_default _ _ hge]
      simp

lemma stepRound_ok_inv {fetch : List String → List (String × Lesson)}
    {wt outRoot : Path} {st st' : SL} (hinv : slInv st)
    (hs : stepRound fetch wt outRoot st = .ok st') : slInv st' := by
  unfold stepRound at hs
  dsimp only at hs
  cases hp : processData wt outRoot
      { st with fetchLog := st.fetchLog ++ [sortStrings st.frontier] }
      (fetch (sortStrings st.frontier)) with
  | error e => rw [hp] at hs; cases hs
  | ok st₁ =>
    rw [hp] at hs
    dsimp only at hs
    have hmeta := processData_meta wt outRoot (fetch (sortStrings st.frontier))
      { st with fetchLog := st.fetchLog ++ [sortStrings st.frontier] }
    rw [hp] at hmeta
    simp only [runState] at hmeta
    cases hs
    refine ⟨?_, ?_, ?_, ?_⟩
    · have h0 := hinv.1
      simp only [hmeta.1, hmeta.2.1, List.length_append, List.length_cons,
        List.length_nil]
      omega
    · intro d hd s hsd
      rw [hmeta.2.1] at hd
      rcases List.mem_append.mp hd with hold | hnew
      · exact hmeta.2.2 s (hinv.2.1 d hold s hsd)
      · simp only [List.mem_singleton] at hnew
        subst hnew
        exact hsd
    · intro s hsf
      exact not_mem_of_mem_removeAll hsf
    · exact noRefetch_of_fields hinv hmeta.1
        (Or.inr ⟨st₁.done, by rw [hmeta.2.1]⟩)

lemma stepRound_error_noRefetch {fetch : List String → List (String × Lesson)}
    {wt outRoot : Path} {st : SL} {e : String × SL} (hinv : slInv st)
    (hs : stepRound fetch wt outRoot st = .error e) : noRefetch e.2 := by
  unfold stepRound at hs
  dsimp only at hs
  cases hp : processData wt outRoot
      { st with fetchLog := st.fetchLog ++ [sortStrings st.frontier] }
      (fetch (sortStrings st.frontier)) with
  | ok st₁ => rw [hp] at hs; cases hs
  | error e' =>
    rw [hp] at hs
    cases hs
    have hmeta := processData_meta wt outRoot (fetch (sortStrings st.frontier))
      { st with fetchLog := st.fetchLog ++ [sortStrings st.frontier] }
    rw [hp] at hmeta
    simp only [runState] at hmeta
    exact noRefetch_of_fields hinv hmeta.1 (Or.inl hmeta.2.1)

lemma slInv_init (slugs : List String) : slInv (SL.init slugs) := by
  refine ⟨rfl, ?_, ?_, ?_⟩
  · intro d hd
    simp [SL.init] at hd
  · intro s _ hdone
    simp [SL.init] at hdone
  · intro i j _ s hsi
    simp [SL.init, List.getD] at hsi

lemma saveLessonsLoop_noRefetch (fetch : List String → List (String × Lesson))
    (wt outRoot : Path) :
    ∀ (n : Nat) (st : SL), slInv st →
      noRefetch (runState (saveLessonsLoop fetch wt outRoot n st)) := by
  intro n
  induction n with
  | zero =>
    intro st hinv
    simpa [saveLessonsLoop, runState] using hinv.2.2.2
  | succ n ih =>
    intro st hinv
    cases hs : stepRound fetch wt outRoot st with
    | error e =>
      have : saveLessonsLoop fetch wt outRoot (n + 1) st = .error e := by
        unfold saveLessonsLoop
        rw [hs]
      rw [this]
      simpa [runState] using stepRound_error_noRefetch hinv hs
    | ok st' =>
      have hinv' := stepRound_ok_inv hinv hs
      cases hfr : st'.frontier.isEmpty with
      | true =>
        have : saveLessonsLoop fetch wt outRoot (n + 1) st = .ok st' := by
          unfold saveLessonsLoop
          rw [hs]
          dsimp only
          rw [hfr]
          simp
        rw [this]
        simpa [runState] using hinv'.2.2.2
      | false =>
        have : saveLessonsLoop fetch wt outRoot (n + 1) st
            = saveLessonsLoop fetch wt outRoot n st' := by
          conv_lhs => unfold saveLessonsLoop
          rw [hs]
          dsimp only
          simp [hfr]
        rw [this]
        exact ih st' hinv'

/-- C8: throughout resource resolution every slug is fetched at most once:
a slug present in the resolved set at the end of round `i` never appears
in the batch fetched in any later round `j`, even if later content
re-references it. -/
theorem saveLessons_no_refetch
    (fetch : List String → List (String × Lesson)) (wt outRoot : Path)
    (slugs : List String) (i j : Nat) (s : String) (hij : i < j)
    (hs : s ∈ (runState (saveLessons fetch wt outRoot slugs)).doneLog.getD i []) :
    s ∉ (runState (saveLessons fetch wt outRoot slugs)).fetchLog.getD j [] :=
  saveLessonsLoop_noRefetch fetch wt outRoot 50 (SL.init slugs)
    (slInv_init slugs) i j hij s hs

/-- C8 witness: in the two-round `intro`/`setup` run, `intro` is resolved
after round 1 and is absent from the round-2 batch. -/
theorem saveLessons_no_refetch_witness :
    "intro" ∈ (runState (saveLessons fetchIntroSetup ["wt"] ["out"]
        ["intro"])).doneLog.getD 0 [] ∧
    "intro" ∉ (runState (saveLessons fetchIntroSetup ["wt"] ["out"]
        ["intro"])).fetchLog.getD 1 [] := by
  exact ⟨by decide,
    saveLessons_no_refetch fetchIntroSetup ["wt"] ["out"] ["intro"] 0 1 "intro"
      (by decide) (by decide)⟩

end NaucseArchive
